import Mathlib

/-!
Verification of the repository-index builder (`devkit/build_packages.py`,
`devkit/build_release.py`) of Lessica/lessica.github.io.

The Python code is shallowly embedded: strings are Lean `String`s, Python
dicts are insertion-ordered association lists, the external world (files on
disk, `dpkg-deb` invocations) is passed in as explicit data, and a raised
`CalledProcessError` is `Except.error exitCode`.
-/

set_option linter.unusedVariables false
set_option linter.unnecessarySeqFocus false

namespace DevKit

/-! ### Python string primitives, implemented on `List Char` -/

/-- Python `s.split('\n')`: split a character list at every newline. -/
def splitLines : List Char → List (List Char)
  | [] => [[]]
  | '\n' :: rest => [] :: splitLines rest
  | c :: rest =>
    match splitLines rest with
    | [] => [[c]]
    | b :: bs => (c :: b) :: bs

/-- Python `s.split('\n\n')`: split at every non-overlapping occurrence of two
consecutive newlines, scanning left to right. -/
def splitBlocks : List Char → List (List Char)
  | [] => [[]]
  | '\n' :: '\n' :: rest => [] :: splitBlocks rest
  | c :: rest =>
    match splitBlocks rest with
    | [] => [[c]]
    | b :: bs => (c :: b) :: bs

/-- Python `s.split(sep, 1)` combined with the `sep in s` test: split at the
first occurrence of `sep`, `none` when `sep` does not occur. -/
def splitFirst (sep : List Char) : List Char → Option (List Char × List Char)
  | [] => if sep = [] then some ([], []) else none
  | c :: rest =>
    if sep.isPrefixOf (c :: rest) then some ([], (c :: rest).drop sep.length)
    else
      match splitFirst sep rest with
      | some (a, b) => some (c :: a, b)
      | none => none

/-- Python `str.strip()`. The source only ever strips ASCII text, where
`Char.isWhitespace` agrees with Python's whitespace set. -/
def pyStrip (l : List Char) : List Char :=
  ((l.dropWhile Char.isWhitespace).reverse.dropWhile Char.isWhitespace).reverse

def pySplitBlocks (s : String) : List String :=
  (splitBlocks s.data).map String.mk

def pySplitLines (s : String) : List String :=
  (splitLines s.data).map String.mk

def pyStripStr (s : String) : String :=
  ⟨pyStrip s.data⟩

def pySplitFirst (sep s : String) : Option (String × String) :=
  (splitFirst sep.data s.data).map fun p => (⟨p.1⟩, ⟨p.2⟩)

/-- Python `block.endswith('\n')` (single-character suffix). -/
def endsWithNl (s : String) : Bool :=
  s.data.getLast? = some '\n'

/-- Lexicographic comparison of character lists by code point, the order
Python uses on strings (a proper prefix compares smaller). -/
def charListLe : List Char → List Char → Bool
  | [], _ => true
  | _ :: _, [] => false
  | a :: as, b :: bs =>
    if a.toNat < b.toNat then true
    else if b.toNat < a.toNat then false
    else charListLe as bs

/-- Python `a <= b` on strings. -/
def pyStrLe (a b : String) : Bool :=
  charListLe a.data b.data

/-- Python's string order as a relation, for sorting. -/
def pyStrOrder (a b : String) : Prop :=
  pyStrLe a b = true

instance : DecidableRel pyStrOrder :=
  fun a b => inferInstanceAs (Decidable (pyStrLe a b = true))

instance : IsTotal String pyStrOrder := by
  constructor
  intro a b
  unfold pyStrOrder pyStrLe
  generalize a.data = as
  generalize b.data = bs
  induction as generalizing bs with
  | nil => exact Or.inl rfl
  | cons a₀ as ih =>
    cases bs with
    | nil => exact Or.inr rfl
    | cons b₀ bs =>
      rcases Nat.lt_trichotomy a₀.toNat b₀.toNat with h | h | h
      · exact Or.inl (by simp [charListLe, h])
      · rcases ih bs with h₂ | h₂
        · exact Or.inl (by simp [charListLe, h, h₂])
        · exact Or.inr (by simp [charListLe, h.symm, h₂])
      · exact Or.inr (by simp [charListLe, h])

instance : IsTrans String pyStrOrder := by
  constructor
  intro a b c
  unfold pyStrOrder pyStrLe
  generalize a.data = as
  generalize b.data = bs
  generalize c.data = cs
  induction as generalizing bs cs with
  | nil => intro _ _; rfl
  | cons a₀ as ih =>
    intro h₁ h₂
    cases bs with
    | nil => exact absurd h₁ (by simp [charListLe])
    | cons b₀ bs =>
      cases cs with
      | nil => exact absurd h₂ (by simp [charListLe])
      | cons c₀ cs =>
        simp only [charListLe] at h₁ h₂ ⊢
        rcases Nat.lt_trichotomy a₀.toNat b₀.toNat with hab | hab | hab <;>
          rcases Nat.lt_trichotomy b₀.toNat c₀.toNat with hbc | hbc | hbc
        · simp [Nat.lt_trans hab hbc]
        · simp [hbc ▸ hab]
        · simp only [if_neg (Nat.lt_asymm hbc), if_pos hbc] at h₂
          cases h₂
        · simp [hab ▸ hbc]
        · simp only [hab, hbc, Nat.lt_irrefl, if_neg (Nat.lt_irrefl _)] at h₁ h₂ ⊢
          exact ih bs cs h₁ h₂
        · simp only [if_neg (Nat.lt_asymm hbc), if_pos hbc] at h₂
          cases h₂
        · simp only [if_neg (Nat.lt_asymm hab), if_pos hab] at h₁
          cases h₁
        · simp only [if_neg (Nat.lt_asymm hab), if_pos hab] at h₁
          cases h₁
        · simp only [if_neg (Nat.lt_asymm hab), if_pos hab] at h₁
          cases h₁

instance : IsAntisymm String pyStrOrder := by
  constructor
  intro a b
  unfold pyStrOrder pyStrLe
  have main : ∀ (as bs : List Char), charListLe as bs = true →
      charListLe bs as = true → as = bs := by
    intro as
    induction as with
    | nil =>
      intro bs _ h₂
      cases bs with
      | nil => rfl
      | cons b₀ bs => exact absurd h₂ (by simp [charListLe])
    | cons a₀ as ih =>
      intro bs h₁ h₂
      cases bs with
      | nil => exact absurd h₁ (by simp [charListLe])
      | cons b₀ bs =>
        simp only [charListLe] at h₁ h₂
        rcases Nat.lt_trichotomy a₀.toNat b₀.toNat with hab | hab | hab
        · simp only [if_neg (Nat.lt_asymm hab), if_pos hab] at h₂
          cases h₂
        · simp only [hab, if_neg (Nat.lt_irrefl _)] at h₁ h₂
          rw [ih bs h₁ h₂, Char.ext (UInt32.ext hab)]
        · simp only [if_neg (Nat.lt_asymm hab), if_pos hab] at h₁
          cases h₁
  intro h₁ h₂
  have hd := main a.data b.data h₁ h₂
  cases a
  cases b
  exact congrArg String.mk hd

/-- Python `sorted(...)` on strings: ascending lexicographic order by code
point. The order is total and antisymmetric, so every correct sort yields one
and the same list; insertion sort is used so that terms evaluate by kernel
reduction. -/
def pySorted (l : List String) : List String :=
  List.insertionSort pyStrOrder l

/-- Python `s.endswith(suffix)`. -/
def pyEndsWith (s suffix : String) : Bool :=
  suffix.data.isSuffixOf s.data

/-! ### Insertion-ordered dictionaries as association lists -/

/-- Python `d.get(k, None)` (keys are unique by construction). -/
def assocGet (m : List (String × α)) (k : String) : Option α :=
  match m with
  | [] => none
  | (k₀, v) :: rest => if k₀ = k then some v else assocGet rest k

/-- Python `d[k] = v` on an insertion-ordered dict: replace the value in place
when the key exists, otherwise append the binding at the end. -/
def assocUpd (m : List (String × α)) (k : String) (v : α) : List (String × α) :=
  match m with
  | [] => [(k, v)]
  | (k₀, v₀) :: rest => if k₀ = k then (k₀, v) :: rest else (k₀, v₀) :: assocUpd rest k v

/-- Python `s.add(x)` on a set modelled as a duplicate-free list. -/
def insertOnce (s : List String) (x : String) : List String :=
  if x ∈ s then s else s ++ [x]

/-! ### Data model -/

/-- The static mapping tables loaded from `index.yaml` / `icons/index.yaml`. -/
structure Config where
  base_url : Option String
  havoc_ids : List (String × String)
  hidden_packages : List String
  package_title_mappings : List (String × String)
  icon_mappings : List (String × String)

/-- One archive as the build sees it: the result of `dpkg-deb -f`
(`Except.error code` models a non-zero exit under `check=True`), its byte
size, and its four content digests. -/
structure DebData where
  control : Except Nat String
  size : Nat
  md5 : String
  sha1 : String
  sha256 : String
  sha512 : String

/-- `get_file_hashes`: the digest dict in its Python insertion order. -/
def get_file_hashes (deb : DebData) : List (String × String) :=
  [("MD5sum", deb.md5), ("SHA1", deb.sha1), ("SHA256", deb.sha256), ("SHA512", deb.sha512)]

/-- `re.search(r"^Key: (.+)$", content, re.MULTILINE)`: the first line starting
with `key ++ ": "` followed by at least one character; returns that remainder. -/
def searchField (key : String) (content : String) : Option String :=
  (splitLines content.data).findSome? fun line =>
    let pre := key.data ++ [':', ' ']
    if pre.isPrefixOf line ∧ pre.length < line.length then some ⟨line.drop pre.length⟩
    else none

/-- `re.sub(r"^Name: .+$", f"Name: {title}", content, flags=re.MULTILINE)`:
every matching line is replaced wholesale. -/
def rewriteNameLines (title : String) (content : String) : String :=
  String.intercalate "\n" ((splitLines content.data).map fun line =>
    if ("Name: ".data).isPrefixOf line ∧ ("Name: ".data).length < line.length then
      "Name: " ++ title
    else ⟨line⟩)

/-- `process_single_deb_file(deb_path)`. The Python `return None, None, None`
(missing `Package` field, or hidden package) is `Except.ok none`; a raised
`CalledProcessError` from `subprocess.run(..., check=True)` is
`Except.error exitCode`. -/
def process_single_deb_file (cfg : Config) (deb_path : String) (deb : DebData) :
    Except Nat (Option (String × String × String)) :=
  match deb.control with
  | .error code => .error code
  | .ok control₀ =>
    match searchField "Package" control₀ with
    | none => .ok none
    | some package_name =>
      let version := (searchField "Version" control₀).getD "unknown"
      let architecture := (searchField "Architecture" control₀).getD "unknown"
      let package_key := package_name ++ "_" ++ version ++ "_" ++ architecture
      let control_content :=
        match assocGet cfg.package_title_mappings package_name with
        | some title => rewriteNameLines title control₀
        | none => control₀
      if package_name ∈ cfg.hidden_packages then .ok none
      else
        let package_info := control_content
        let package_info :=
          match assocGet cfg.havoc_ids package_name with
          | some havoc_id =>
            if havoc_id = "" then package_info
            else
              let package_info :=
                package_info ++ "Depiction: https://havoc.app/depiction/" ++ havoc_id ++ "\n"
              let package_info :=
                package_info ++ "SileoDepiction: https://havoc.app/package/" ++ havoc_id ++
                  "/depiction.json\n"
              match cfg.base_url, assocGet cfg.icon_mappings package_name with
              | some base, some icon_name =>
                if base = "" ∨ icon_name = "" then package_info
                else package_info ++ "Icon: " ++ base ++ "/icons/" ++ icon_name ++ "\n"
              | _, _ => package_info
          | none => package_info
        let package_info := package_info ++ "Filename: " ++ deb_path ++ "\n"
        let package_info := package_info ++ "Size: " ++ toString deb.size ++ "\n"
        let package_info := (get_file_hashes deb).foldl
          (fun acc kv => acc ++ kv.1 ++ ": " ++ kv.2 ++ "\n") package_info
        .ok (some (package_key, package_info, deb_path))

/-! ### Parsing an existing `Packages` file -/

/-- One entry of the dict built by `parse_existing_packages`. -/
structure ExistingPkg where
  info : List (String × String)
  block : String
  filename : Option String
  package_name : String
  version : String
  architecture : String
deriving DecidableEq

/-- The `package_info` dict of one stanza: the per-line loop of
`parse_existing_packages`, splitting each `Key: Value` line at the first
colon-space (later occurrences of a key overwrite earlier ones). -/
def stanzaFields (block : String) : List (String × String) :=
  (pySplitLines (pyStripStr block)).foldl (fun acc line =>
    match pySplitFirst ": " line with
    | some kv => assocUpd acc kv.1 kv.2
    | none => acc) []

/-- One iteration of the block loop of `parse_existing_packages`: skip blocks
that strip to nothing, skip stanzas without the three (Python-truthy) identity
fields, otherwise store the raw block under the composite key. -/
def parseStanzaStep (packages : List (String × ExistingPkg)) (block : String) :
    List (String × ExistingPkg) :=
  if pyStripStr block = "" then packages
  else
    let fields := stanzaFields block
    match assocGet fields "Package", assocGet fields "Version",
        assocGet fields "Architecture" with
    | some n, some v, some a =>
      if n ≠ "" ∧ v ≠ "" ∧ a ≠ "" then
        let package_key := n ++ "_" ++ v ++ "_" ++ a
        assocUpd packages package_key
          ⟨fields, block, assocGet fields "Filename", n, v, a⟩
      else packages
    | _, _, _ => packages

/-- `parse_existing_packages(packages_file)`. `none` content models a missing
file (`os.path.exists` false). Stores each stanza's raw (unstripped) block
text under the composite key; values are Python-truthy only when nonempty. -/
def parse_existing_packages (content : Option String) : List (String × ExistingPkg) :=
  match content with
  | none => []
  | some content =>
    (pySplitBlocks content).foldl parseStanzaStep []

/-! ### Incremental merge (`merge_packages_file`, sparse-checkout mode)

The ChangeSet (the list returned by `get_newly_added_deb_files`, an external
git collaborator) is passed in as `new_deb_files`; the filesystem is the map
`fs : String → Option DebData`, where `none` models `os.path.exists` false. -/

/-- One iteration of the `for deb_file in new_deb_files` loop: threads the
`(new_packages, updated_filenames)` state; a raised error aborts the fold. -/
def processDebStep (cfg : Config) (fs : String → Option DebData)
    (st : List (String × String) × List String) (deb_file : String) :
    Except Nat (List (String × String) × List String) :=
  match fs deb_file with
  | none => .ok st
  | some deb =>
    match process_single_deb_file cfg deb_file deb with
    | .error code => .error code
    | .ok none => .ok st
    | .ok (some (package_key, package_info, filename)) =>
      if package_key ≠ "" ∧ package_info ≠ "" then
        .ok (assocUpd st.1 package_key package_info, insertOnce st.2 filename)
      else .ok st

/-- The whole ChangeSet loop of `merge_packages_file` (lines 223–234). -/
def processChangeSet (cfg : Config) (fs : String → Option DebData)
    (new_deb_files : List String) :
    Except Nat (List (String × String) × List String) :=
  new_deb_files.foldlM (processDebStep cfg fs) ([], [])

/-- The `all_packages` dict of `merge_packages_file` (lines 237–248): existing
stanzas whose `Filename` is not in `updated_filenames` (Python `None` is never
a member of the set), then the new stanzas on top. -/
def mergedPackages (cfg : Config) (fs : String → Option DebData)
    (existing_content : Option String) (new_deb_files : List String) :
    Except Nat (List (String × String)) :=
  match processChangeSet cfg fs new_deb_files with
  | .error code => .error code
  | .ok (new_packages, updated_filenames) =>
    let existing_packages := parse_existing_packages existing_content
    let all_packages := existing_packages.foldl (fun acc kp =>
      match kp.2.filename with
      | some f => if f ∈ updated_filenames then acc else assocUpd acc kp.1 kp.2.block
      | none => assocUpd acc kp.1 kp.2.block) []
    .ok (new_packages.foldl (fun acc kv => assocUpd acc kv.1 kv.2) all_packages)

/-- The write loop of `merge_packages_file` (lines 251–256): blocks in
`sorted(all_packages.keys())` order, each followed by a `'\n'` when it lacks
one, then a blank line. -/
def serializePackages (all_packages : List (String × String)) : String :=
  (pySorted (all_packages.map Prod.fst)).foldl (fun acc package_key =>
    let block := (assocGet all_packages package_key).getD ""
    acc ++ block ++ (if endsWithNl block then "" else "\n") ++ "\n") ""

/-- `merge_packages_file(output_file)`. Returns `Except.ok none` when the
function returns without writing (empty ChangeSet), `Except.ok (some doc)`
when it writes `doc`, `Except.error code` when an extraction raises. -/
def merge_packages_file (cfg : Config) (fs : String → Option DebData)
    (existing_content : Option String) (new_deb_files : List String) :
    Except Nat (Option String) :=
  if new_deb_files.isEmpty then .ok none
  else
    match mergedPackages cfg fs existing_content new_deb_files with
    | .error code => .error code
    | .ok all_packages => .ok (some (serializePackages all_packages))

/-- Content of the `Packages` file once `merge_packages_file` finishes:
unchanged when the function returned without writing. -/
def packages_file_after (cfg : Config) (fs : String → Option DebData)
    (existing_content : Option String) (new_deb_files : List String) :
    Except Nat (Option String) :=
  match merge_packages_file cfg fs existing_content new_deb_files with
  | .error code => .error code
  | .ok none => .ok existing_content
  | .ok (some d) => .ok (some d)

/-! ### Full rebuild (`generate_packages_file`, normal mode) -/

/-- `generate_packages_file(deb_directory, output_file)`: the directory listing
(`os.listdir`, arbitrary order) is sorted, filtered to `.deb` names, and the
surviving stanzas are written in that enumeration order. `readDeb` models
reading the archive at `os.path.join(deb_directory, deb_file)` (the directory
has no trailing slash, so the join is `dir ++ "/" ++ name`). -/
def generate_packages_file (cfg : Config) (deb_directory : String)
    (listing : List String) (readDeb : String → DebData) : Except Nat String :=
  ((pySorted listing).filter (fun f => pyEndsWith f ".deb")).foldlM
    (fun out deb_file =>
      let deb_path := deb_directory ++ "/" ++ deb_file
      match process_single_deb_file cfg deb_path (readDeb deb_path) with
      | .error code => .error code
      | .ok none => .ok out
      | .ok (some (package_key, package_info, _)) =>
        if package_key ≠ "" ∧ package_info ≠ "" then .ok (out ++ package_info ++ "\n")
        else .ok out) ""

/-! ### `build_release.py` -/

/-- One artifact file as `generate_release_file` sees it: size and digests. -/
structure ReleaseData where
  size : Nat
  md5 : String
  sha1 : String
  sha256 : String
  sha512 : String

/-- `pathlib.Path(p).name` for the slash-free artifact names the caller uses. -/
def pathBaseName (p : String) : String :=
  (p.splitOn "/").getLastD p

/-- A broken-down UTC build instant; `weekday` follows Python with `0 = Monday`. -/
structure BuildTime where
  weekday : Nat
  day : Nat
  month : Nat
  year : Nat
  hour : Nat
  minute : Nat
  second : Nat

def weekdayAbbrev : Nat → String
  | 0 => "Mon" | 1 => "Tue" | 2 => "Wed" | 3 => "Thu" | 4 => "Fri" | 5 => "Sat"
  | _ => "Sun"

def monthAbbrev : Nat → String
  | 1 => "Jan" | 2 => "Feb" | 3 => "Mar" | 4 => "Apr" | 5 => "May" | 6 => "Jun"
  | 7 => "Jul" | 8 => "Aug" | 9 => "Sep" | 10 => "Oct" | 11 => "Nov" | _ => "Dec"

def pad2 (n : Nat) : String :=
  if n < 10 then "0" ++ toString n else toString n

def pad4 (n : Nat) : String :=
  if n < 10 then "000" ++ toString n
  else if n < 100 then "00" ++ toString n
  else if n < 1000 then "0" ++ toString n
  else toString n

/-- `datetime.now(timezone.utc).strftime('%a, %d %b %Y %H:%M:%S +0000')` on a
broken-down UTC instant: the offset is the literal text `+0000`. -/
def strftimeDate (t : BuildTime) : String :=
  weekdayAbbrev t.weekday ++ ", " ++ pad2 t.day ++ " " ++ monthAbbrev t.month ++ " " ++
    pad4 t.year ++ " " ++ pad2 t.hour ++ ":" ++ pad2 t.minute ++ ":" ++ pad2 t.second ++
    " +0000"

/-- `generate_release_file(packages_files, output_file)`: fixed header lines,
the `Date` line, then the four per-algorithm loops exactly as written. -/
def generate_release_file (now : BuildTime) (fsR : String → ReleaseData)
    (packages_files : List String) : String :=
  let header :=
    "Origin: 82Flex\n" ++
    "Label: 82Flex\n" ++
    "Suite: stable\n" ++
    "Version: 1.0\n" ++
    "Codename: 82Flex_Repo\n" ++
    "Architectures: iphoneos-arm iphoneos-arm64 iphoneos-arm64e\n" ++
    "Components: main\n" ++
    "Description: Personal repository of @Lessica\n" ++
    "Date: " ++ strftimeDate now ++ "\n"
  let md5Block := packages_files.foldl (fun acc file_path =>
    acc ++ " " ++ (fsR file_path).md5 ++ " " ++ toString (fsR file_path).size ++ " " ++
      pathBaseName file_path ++ "\n") "MD5Sum:\n"
  let sha1Block := packages_files.foldl (fun acc file_path =>
    acc ++ " " ++ (fsR file_path).sha1 ++ " " ++ toString (fsR file_path).size ++ " " ++
      pathBaseName file_path ++ "\n") "SHA1:\n"
  let sha256Block := packages_files.foldl (fun acc file_path =>
    acc ++ " " ++ (fsR file_path).sha256 ++ " " ++ toString (fsR file_path).size ++ " " ++
      pathBaseName file_path ++ "\n") "SHA256:\n"
  let sha512Block := packages_files.foldl (fun acc file_path =>
    acc ++ " " ++ (fsR file_path).sha512 ++ " " ++ toString (fsR file_path).size ++ " " ++
      pathBaseName file_path ++ "\n") "SHA512:\n"
  header ++ md5Block ++ sha1Block ++ sha256Block ++ sha512Block

/-! ### Derived / spec-side definitions -/

/-- Concatenation of a list of strings (used to state serializations). -/
def strConcat : List String → String
  | [] => ""
  | s :: rest => s ++ strConcat rest

/-- The last staged value for key `k` in a left-to-right staging list, with a
default: the value written by a Python dict after inserting the pairs in order. -/
def lastValueFor (k : String) (staged : List (String × String)) (dflt : Option String) :
    Option String :=
  staged.foldl (fun acc kv => if kv.1 = k then some kv.2 else acc) dflt

/-- The `(package_key, package_info)` pairs the ChangeSet loop actually stages,
in ChangeSet order: entries that exist on disk, extract successfully, are not
suppressed, and pass the Python truthiness test. -/
def stagedPairs (cfg : Config) (fs : String → Option DebData) (paths : List String) :
    List (String × String) :=
  paths.filterMap fun deb_file =>
    match fs deb_file with
    | none => none
    | some deb =>
      match process_single_deb_file cfg deb_file deb with
      | .ok (some (package_key, package_info, _)) =>
        if package_key ≠ "" ∧ package_info ≠ "" then some (package_key, package_info)
        else none
      | _ => none

/-- The identity key a stanza would merge under, combining the parse rules of
`parse_existing_packages` for a single block. -/
def stanzaIdentity (block : String) : Option String :=
  match assocGet (stanzaFields block) "Package", assocGet (stanzaFields block) "Version",
      assocGet (stanzaFields block) "Architecture" with
  | some n, some v, some a =>
    if n ≠ "" ∧ v ≠ "" ∧ a ≠ "" then some (n ++ "_" ++ v ++ "_" ++ a) else none
  | _, _, _ => none

/-- The `Filename` field a stanza carries, per the parse rules of
`parse_existing_packages`. -/
def stanzaFilename (block : String) : Option String :=
  assocGet (stanzaFields block) "Filename"

/-- Parse a document with `parse_existing_packages` and re-serialize the
resulting stanza list with the writer of `merge_packages_file`. -/
def roundTripDoc (d : String) : String :=
  serializePackages ((parse_existing_packages (some d)).map fun p => (p.1, p.2.block))

/-- A well-formed document in the claimed shape: each stanza block followed by
one blank line (so the document ends with a trailing blank line). -/
def joinStanzas (blocks : List String) : String :=
  strConcat (blocks.map (· ++ "\n\n"))

/-- No two consecutive newline characters occur. -/
def noNlNl : List Char → Bool
  | '\n' :: '\n' :: _ => false
  | _ :: rest => noNlNl rest
  | [] => true

/-- Spec-side (section 4.2 of the spec): the derived fields appended after the
control fields, in the documented fixed order — depiction URL,
secondary-depiction URL, icon URL, filename, size, then the four digests;
the depiction pair only when a depiction id is found, the icon line only when
additionally a base URL and an icon id are configured. -/
def specDerivedPart (cfg : Config) (deb_path : String) (deb : DebData)
    (package_name : String) : String :=
  (match assocGet cfg.havoc_ids package_name with
   | some havoc_id =>
     if havoc_id = "" then ""
     else
       "Depiction: https://havoc.app/depiction/" ++ havoc_id ++ "\n" ++
       ("SileoDepiction: https://havoc.app/package/" ++ havoc_id ++ "/depiction.json\n" ++
        (match cfg.base_url, assocGet cfg.icon_mappings package_name with
         | some base, some icon_name =>
           if base = "" ∨ icon_name = "" then ""
           else "Icon: " ++ base ++ "/icons/" ++ icon_name ++ "\n"
         | _, _ => ""))
   | none => "") ++
  ("Filename: " ++ deb_path ++ "\n" ++
   ("Size: " ++ toString deb.size ++ "\n" ++
    ("MD5sum: " ++ deb.md5 ++ "\n" ++
     ("SHA1: " ++ deb.sha1 ++ "\n" ++
      ("SHA256: " ++ deb.sha256 ++ "\n" ++
       ("SHA512: " ++ deb.sha512 ++ "\n"))))))

/-- The control text after the optional title override of
`package_title_mappings` has been applied. -/
def renamedControl (cfg : Config) (package_name control₀ : String) : String :=
  match assocGet cfg.package_title_mappings package_name with
  | some title => rewriteNameLines title control₀
  | none => control₀

/-- Spec-side (section 4.4 of the spec): the survivors of a full rebuild, in
enumeration order — every archive of the listing in lexicographic filename
order, extracted and enriched, hidden ones discarded, no re-sort by identity. -/
def fullRebuildSurvivors (cfg : Config) (deb_directory : String)
    (listing : List String) (readDeb : String → DebData) : Except Nat (List String) :=
  (((pySorted listing).filter (fun f => pyEndsWith f ".deb")).mapM fun deb_file =>
    process_single_deb_file cfg (deb_directory ++ "/" ++ deb_file)
      (readDeb (deb_directory ++ "/" ++ deb_file))).map
    fun results => results.filterMap fun r =>
      match r with
      | some (package_key, package_info, _) =>
        if package_key ≠ "" ∧ package_info ≠ "" then some package_info else none
      | none => none

/-- Spec-side (section 4.5 of the spec): one digest block — a header line
naming the algorithm, then one line per artifact formatted as
`" " ++ hex-digest ++ " " ++ byte-size ++ " " ++ base-filename`, in the
caller-supplied artifact order. -/
def specDigestBlock (algo : String) (digestOf : ReleaseData → String)
    (fsR : String → ReleaseData) (files : List String) : String :=
  algo ++ ":\n" ++ strConcat (files.map fun p =>
    " " ++ (digestOf (fsR p) ++ " " ++ (toString (fsR p).size ++ " " ++
      (pathBaseName p ++ "\n"))))

/-- Spec-side: the fixed header metadata lines of the digest summary, ending
with the `Date` line. -/
def specReleaseHeader (now : BuildTime) : String :=
  "Origin: 82Flex\nLabel: 82Flex\nSuite: stable\nVersion: 1.0\nCodename: 82Flex_Repo\nArchitectures: iphoneos-arm iphoneos-arm64 iphoneos-arm64e\nComponents: main\nDescription: Personal repository of @Lessica\n" ++
    ("Date: " ++ strftimeDate now ++ "\n")

/-- The retention rule of the existing-stanza loop of `merge_packages_file` as
a staging function: an existing stanza survives into `all_packages` exactly
when its `Filename` is absent from `updated_filenames` (a stanza without a
`Filename` always survives, as Python `None` is never a member of the set). -/
def keepStage (touched : List String) (kp : String × ExistingPkg) :
    Option (String × String) :=
  match kp.2.filename with
  | some f => if f ∈ touched then none else some (kp.1, kp.2.block)
  | none => some (kp.1, kp.2.block)

/-! ### Concrete fixtures for witnesses and counterexamples -/

/-- A small configuration: one depiction id and icon for `pkg`, a title
override for `pkg`, and `hid` hidden. -/
def cfgA : Config :=
  ⟨some "https://cdn", [("pkg", "h1")], ["hid"], [("pkg", "Nice")], [("pkg", "i.png")]⟩

def debOk : DebData :=
  ⟨.ok "Package: pkg\nName: Old\nVersion: 1.0\nArchitecture: arm\n", 7, "m", "s1", "s2", "s5"⟩

def debHidden : DebData :=
  ⟨.ok "Package: hid\nVersion: 2.0\nArchitecture: arm\n", 3, "m", "s1", "s2", "s5"⟩

def debNoVer : DebData :=
  ⟨.ok "Package: q\nArchitecture: arm\n", 3, "m", "s1", "s2", "s5"⟩

def debErr : DebData :=
  ⟨.error 2, 0, "", "", "", ""⟩

def debDup : DebData :=
  ⟨.ok "Package: p\nVersion: 1\nArchitecture: a\n", 1, "m", "s", "t", "u"⟩

def debNoPack : DebData :=
  ⟨.ok "Name: X\n", 1, "", "", "", ""⟩

def fsA : String → Option DebData := fun p =>
  if p = "downloads/pkg.deb" then some debOk
  else if p = "downloads/hid.deb" then some debHidden
  else if p = "downloads/bad.deb" then some debErr
  else if p = "downloads/q.deb" then some debNoVer
  else if p = "downloads/nopack.deb" then some debNoPack
  else none

/-- The enriched stanza `downloads/pkg.deb` extracts to under `cfgA`. -/
def infoPkg : String :=
  "Package: pkg\nName: Nice\nVersion: 1.0\nArchitecture: arm\nDepiction: https://havoc.app/depiction/h1\nSileoDepiction: https://havoc.app/package/h1/depiction.json\nIcon: https://cdn/icons/i.png\nFilename: downloads/pkg.deb\nSize: 7\nMD5sum: m\nSHA1: s1\nSHA256: s2\nSHA512: s5\n"

/-- The raw block `docHid` parses to. -/
def blockHid : String :=
  "Package: hid\nVersion: 1.0\nArchitecture: arm\nFilename: downloads/hid.deb"

/-- An existing document holding a visible stanza for `downloads/hid.deb`. -/
def docHid : String :=
  "Package: hid\nVersion: 1.0\nArchitecture: arm\nFilename: downloads/hid.deb\n\n"

/-- A well-formed document whose two stanzas are not in ascending key order. -/
def docOutOfOrder : String :=
  "Package: b\nVersion: 1\nArchitecture: x\n\nPackage: a\nVersion: 1\nArchitecture: x\n\n"

/-- A configuration with no mapping tables at all. -/
def cfgPlain : Config :=
  ⟨none, [], [], [], []⟩

/-- The full-rebuild output over `["a.deb", "b.deb"]` when both archives carry
the same control stanza: two stanzas with one identity triple. -/
def dupDoc : String :=
  "Package: p\nVersion: 1\nArchitecture: a\nFilename: downloads/a.deb\nSize: 1\nMD5sum: m\nSHA1: s\nSHA256: t\nSHA512: u\n\nPackage: p\nVersion: 1\nArchitecture: a\nFilename: downloads/b.deb\nSize: 1\nMD5sum: m\nSHA1: s\nSHA256: t\nSHA512: u\n\n"

/-- The incremental-merge output of staging `downloads/pkg.deb` on top of
`docHid`. -/
def docMergedC5 : String :=
  "Package: hid\nVersion: 1.0\nArchitecture: arm\nFilename: downloads/hid.deb\n\nPackage: pkg\nName: Nice\nVersion: 1.0\nArchitecture: arm\nDepiction: https://havoc.app/depiction/h1\nSileoDepiction: https://havoc.app/package/h1/depiction.json\nIcon: https://cdn/icons/i.png\nFilename: downloads/pkg.deb\nSize: 7\nMD5sum: m\nSHA1: s1\nSHA256: s2\nSHA512: s5\n\n"

/-! ### Helper lemmas -/

theorem foldl_fun_congr {α β : Type} {f g : β → α → β} (h : ∀ b a, f b a = g b a)
    (l : List α) (init : β) : l.foldl f init = l.foldl g init := by
  induction l generalizing init with
  | nil => rfl
  | cons x rest ih => simp only [List.foldl_cons, h, ih]

theorem foldl_append_eq {α : Type} (g : α → String) (l : List α) (init : String) :
    l.foldl (fun acc x => acc ++ g x) init = init ++ strConcat (l.map g) := by
  induction l generalizing init with
  | nil => simp [strConcat]
  | cons x rest ih => simp [strConcat, ih, String.append_assoc]

theorem assocGet_assocUpd {β : Type} (m : List (String × β)) (k k₂ : String) (v : β) :
    assocGet (assocUpd m k v) k₂ = if k = k₂ then some v else assocGet m k₂ := by
  induction m with
  | nil =>
    simp only [assocUpd, assocGet]
  | cons kv rest ih =>
    obtain ⟨k₀, v₀⟩ := kv
    by_cases h₀ : k₀ = k
    · subst h₀
      simp only [assocUpd, if_pos rfl, assocGet]
      by_cases h₂ : k₀ = k₂ <;> simp [h₂]
    · simp only [assocUpd, if_neg h₀, assocGet, ih]
      by_cases h₂ : k₀ = k₂
      · subst h₂
        simp [Ne.symm h₀]
      · simp [h₂]

theorem assocGet_eq_none_iff {β : Type} (m : List (String × β)) (k : String) :
    assocGet m k = none ↔ k ∉ m.map Prod.fst := by
  induction m with
  | nil => simp [assocGet]
  | cons kv rest ih =>
    obtain ⟨k₀, v₀⟩ := kv
    by_cases h₀ : k₀ = k
    · subst h₀; simp [assocGet]
    · simp [assocGet, h₀, ih, Ne.symm h₀]

theorem mem_of_assocGet_eq_some {β : Type} {m : List (String × β)} {k : String} {v : β}
    (h : assocGet m k = some v) : (k, v) ∈ m := by
  induction m with
  | nil => simp [assocGet] at h
  | cons kv rest ih =>
    obtain ⟨k₀, v₀⟩ := kv
    by_cases h₀ : k₀ = k
    · have hv : v₀ = v := by simpa [assocGet, h₀] using h
      rw [← hv, ← h₀]
      exact List.mem_cons_self _ _
    · simp only [assocGet, if_neg h₀] at h
      exact List.mem_cons_of_mem _ (ih h)

theorem assocUpd_map_fst {β : Type} (m : List (String × β)) (k : String) (v : β) :
    (assocUpd m k v).map Prod.fst =
      if k ∈ m.map Prod.fst then m.map Prod.fst else m.map Prod.fst ++ [k] := by
  induction m with
  | nil => simp [assocUpd]
  | cons kv rest ih =>
    obtain ⟨k₀, v₀⟩ := kv
    by_cases h₀ : k₀ = k
    · subst h₀; simp [assocUpd]
    · simp only [assocUpd, if_neg h₀, List.map_cons, ih]
      by_cases hmem : k ∈ rest.map Prod.fst
      · simp [hmem, Ne.symm h₀]
      · simp [hmem, Ne.symm h₀]

theorem assocUpd_nodup_keys {β : Type} {m : List (String × β)} (k : String) (v : β)
    (h : (m.map Prod.fst).Nodup) : ((assocUpd m k v).map Prod.fst).Nodup := by
  rw [assocUpd_map_fst]
  by_cases hmem : k ∈ m.map Prod.fst
  · simpa [hmem]
  · rw [if_neg hmem, List.nodup_append]
    refine ⟨h, List.nodup_singleton k, ?_⟩
    intro a ha hb
    rw [List.mem_singleton] at hb
    subst hb
    exact hmem ha

theorem nodup_keys_unique {β : Type} {m : List (String × β)} {k : String} {p q : β}
    (hnd : (m.map Prod.fst).Nodup) (hp : (k, p) ∈ m) (hq : (k, q) ∈ m) : p = q := by
  induction m with
  | nil => simp at hp
  | cons kv rest ih =>
    obtain ⟨k₀, v₀⟩ := kv
    simp only [List.map_cons, List.nodup_cons] at hnd
    rcases List.mem_cons.1 hp with hp₁ | hp₁ <;> rcases List.mem_cons.1 hq with hq₁ | hq₁
    · rw [Prod.mk.injEq] at hp₁ hq₁
      rw [hp₁.2, hq₁.2]
    · rw [Prod.mk.injEq] at hp₁
      have hk : k₀ ∈ rest.map Prod.fst := by
        rw [← hp₁.1]
        simpa using List.mem_map_of_mem Prod.fst hq₁
      exact absurd hk hnd.1
    · rw [Prod.mk.injEq] at hq₁
      have hk : k₀ ∈ rest.map Prod.fst := by
        rw [← hq₁.1]
        simpa using List.mem_map_of_mem Prod.fst hp₁
      exact absurd hk hnd.1
    · exact ih hnd.2 hp₁ hq₁

theorem lastValueFor_cons (k : String) (kv : String × String)
    (staged : List (String × String)) (dflt : Option String) :
    lastValueFor k (kv :: staged) dflt =
      lastValueFor k staged (if kv.1 = k then some kv.2 else dflt) := rfl

theorem lastValueFor_of_not_mem {k : String} {staged : List (String × String)}
    (h : ∀ kv ∈ staged, kv.1 ≠ k) (dflt : Option String) :
    lastValueFor k staged dflt = dflt := by
  induction staged generalizing dflt with
  | nil => rfl
  | cons kv rest ih =>
    rw [lastValueFor_cons, if_neg (h kv (List.mem_cons_self _ _))]
    exact ih (fun kv hkv => h kv (List.mem_cons_of_mem _ hkv)) dflt

theorem lastValueFor_of_unique {k : String} {staged : List (String × String)} {b : String}
    (hex : ∃ kv ∈ staged, kv.1 = k) (huni : ∀ kv ∈ staged, kv.1 = k → kv.2 = b)
    (dflt : Option String) : lastValueFor k staged dflt = some b := by
  induction staged generalizing dflt with
  | nil => simp at hex
  | cons kv rest ih =>
    rw [lastValueFor_cons]
    by_cases hrest : ∃ kv ∈ rest, kv.1 = k
    · exact ih hrest (fun kv hkv hk => huni kv (List.mem_cons_of_mem _ hkv) hk) _
    · push_neg at hrest
      rcases hex with ⟨kv₁, hkv₁, hk₁⟩
      rcases List.mem_cons.1 hkv₁ with h₁ | h₁
      · rw [if_pos (h₁ ▸ hk₁), huni kv (List.mem_cons_self _ _) (h₁ ▸ hk₁)]
        exact lastValueFor_of_not_mem hrest _
      · exact absurd hk₁ (hrest kv₁ h₁)

theorem assocGet_foldl_stage {γ : Type} (stage : γ → Option (String × String))
    (l : List γ) (init : List (String × String)) (k : String) :
    assocGet (l.foldl (fun acc x =>
      match stage x with
      | some kv => assocUpd acc kv.1 kv.2
      | none => acc) init) k =
    lastValueFor k (l.filterMap stage) (assocGet init k) := by
  induction l generalizing init with
  | nil => rfl
  | cons x rest ih =>
    rw [List.foldl_cons]
    cases hs : stage x with
    | none => simp only [hs, List.filterMap_cons, ih]
    | some kv =>
      simp only [hs, List.filterMap_cons, ih, lastValueFor_cons, assocGet_assocUpd]

theorem foldl_stage_nodup_keys {γ : Type} (stage : γ → Option (String × String))
    (l : List γ) (init : List (String × String)) (h : (init.map Prod.fst).Nodup) :
    ((l.foldl (fun acc x =>
      match stage x with
      | some kv => assocUpd acc kv.1 kv.2
      | none => acc) init).map Prod.fst).Nodup := by
  induction l generalizing init with
  | nil => exact h
  | cons x rest ih =>
    rw [List.foldl_cons]
    cases hs : stage x with
    | none => exact ih init h
    | some kv => exact ih _ (assocUpd_nodup_keys _ _ h)

theorem mem_insertOnce {s : List String} {x f : String} :
    f ∈ insertOnce s x ↔ f ∈ s ∨ f = x := by
  by_cases h : x ∈ s
  · simp only [insertOnce, if_pos h]
    exact ⟨Or.inl, fun hf => hf.elim id (fun he => he ▸ h)⟩
  · simp [insertOnce, h]

/-- `subprocess.run(..., check=True)` raising propagates out of
`process_single_deb_file` unhandled. -/
theorem process_control_error {cfg : Config} {p : String} {d : DebData} {code : Nat}
    (h : d.control = .error code) :
    process_single_deb_file cfg p d = .error code := by
  simp [process_single_deb_file, h]

/-- Whenever extraction returns a record, the returned filename is the
processed archive path itself. -/
theorem process_ok_some_path {cfg : Config} {p : String} {d : DebData}
    {r : String × String × String}
    (h : process_single_deb_file cfg p d = .ok (some r)) : r.2.2 = p := by
  simp only [process_single_deb_file] at h
  split at h
  · simp at h
  · split at h
    · simp at h
    · split at h
      · simp at h
      · simp only [Except.ok.injEq, Option.some.injEq] at h
        rw [← h]

/-- The successful extraction path: control text obtained, `Package` present,
package not hidden. The returned stanza is the (possibly title-rewritten)
control text followed by the derived fields in the documented order, and the
key substitutes `"unknown"` for a missing `Version` or `Architecture`. -/
theorem process_success {cfg : Config} {p : String} {d : DebData} {c name : String}
    (hc : d.control = .ok c) (hp : searchField "Package" c = some name)
    (hh : name ∉ cfg.hidden_packages) :
    process_single_deb_file cfg p d = .ok (some
      (name ++ "_" ++ (searchField "Version" c).getD "unknown" ++ "_" ++
         (searchField "Architecture" c).getD "unknown",
       renamedControl cfg name c ++ specDerivedPart cfg p d name, p)) := by
  simp only [process_single_deb_file, hc, hp, renamedControl, specDerivedPart,
    get_file_hashes, List.foldl_cons, List.foldl_nil, if_neg hh]
  cases hhav : assocGet cfg.havoc_ids name with
  | none =>
    simp [String.append_assoc] <;> rfl
  | some havoc_id =>
    by_cases hemp : havoc_id = ""
    · simp [hemp, String.append_assoc] <;> rfl
    · simp only [if_neg hemp]
      cases hbase : cfg.base_url with
      | none => simp [String.append_assoc] <;> rfl
      | some base =>
        cases hicon : assocGet cfg.icon_mappings name with
        | none => simp [String.append_assoc] <;> rfl
        | some icon_name =>
          by_cases hbe : base = "" ∨ icon_name = ""
          · simp [hbe, String.append_assoc] <;> rfl
          · simp [hbe, String.append_assoc] <;> rfl

theorem exceptBind_ok_iff {ε α β : Type} (x : Except ε α) (f : α → Except ε β) (b : β) :
    x >>= f = .ok b ↔ ∃ a, x = .ok a ∧ f a = .ok b := by
  cases x with
  | error e =>
    constructor
    · intro h
      exact Except.noConfusion (show Except.error e = Except.ok b from h)
    · rintro ⟨a, ha, _⟩
      exact Except.noConfusion ha
  | ok a =>
    constructor
    · intro h
      exact ⟨a, rfl, h⟩
    · rintro ⟨a₂, ha, hf⟩
      injection ha with h₂
      subst h₂
      exact hf

/-- The staged `new_packages` dict of the ChangeSet loop is the ordered
insertion of `stagedPairs`. -/
theorem foldlM_processDebStep_fst (cfg : Config) (fs : String → Option DebData) :
    ∀ (paths : List String) (st st' : List (String × String) × List String),
      paths.foldlM (processDebStep cfg fs) st = .ok st' →
      st'.1 = (stagedPairs cfg fs paths).foldl
        (fun acc kv => assocUpd acc kv.1 kv.2) st.1 := by
  intro paths
  induction paths with
  | nil =>
    intro st st' h
    simp only [List.foldlM_nil] at h
    cases h
    rfl
  | cons p rest ih =>
    intro st st' h
    rw [List.foldlM_cons] at h
    obtain ⟨st₁, hstep, h⟩ := (exceptBind_ok_iff _ _ _).1 h
    have hrest := ih st₁ st' h
    simp only [processDebStep] at hstep
    cases hfs : fs p with
    | none =>
      simp only [hfs] at hstep
      cases hstep
      simpa only [stagedPairs, List.filterMap_cons, hfs] using hrest
    | some deb =>
      cases hpr : process_single_deb_file cfg p deb with
      | error code => simp [hfs, hpr] at hstep
      | ok orec =>
        cases orec with
        | none =>
          simp only [hfs, hpr] at hstep
          cases hstep
          simpa only [stagedPairs, List.filterMap_cons, hfs, hpr] using hrest
        | some r =>
          obtain ⟨package_key, package_info, filename⟩ := r
          simp only [hfs, hpr] at hstep
          by_cases htr : package_key ≠ "" ∧ package_info ≠ ""
          · rw [if_pos htr] at hstep
            cases hstep
            simpa only [stagedPairs, List.filterMap_cons, hfs, hpr, if_pos htr,
              List.foldl_cons] using hrest
          · rw [if_neg htr] at hstep
            cases hstep
            simpa only [stagedPairs, List.filterMap_cons, hfs, hpr, if_neg htr] using hrest

/-- Every filename recorded as touched by the ChangeSet loop (beyond the
initial state) comes from an archive that exists on disk and extracted to a
surviving record for that very path. -/
theorem foldlM_processDebStep_touched (cfg : Config) (fs : String → Option DebData) :
    ∀ (paths : List String) (st st' : List (String × String) × List String),
      paths.foldlM (processDebStep cfg fs) st = .ok st' →
      ∀ f ∈ st'.2, f ∈ st.2 ∨ ∃ d, fs f = some d ∧
        ∃ k i, process_single_deb_file cfg f d = .ok (some (k, i, f)) ∧
          k ≠ "" ∧ i ≠ "" := by
  intro paths
  induction paths with
  | nil =>
    intro st st' h
    simp only [List.foldlM_nil] at h
    cases h
    exact fun f hf => Or.inl hf
  | cons p rest ih =>
    intro st st' h
    rw [List.foldlM_cons] at h
    obtain ⟨st₁, hstep, h⟩ := (exceptBind_ok_iff _ _ _).1 h
    have hrest := ih st₁ st' h
    simp only [processDebStep] at hstep
    intro f hf
    cases hfs : fs p with
    | none =>
      simp only [hfs] at hstep
      cases hstep
      exact hrest f hf
    | some deb =>
      cases hpr : process_single_deb_file cfg p deb with
      | error code => simp [hfs, hpr] at hstep
      | ok orec =>
        cases orec with
        | none =>
          simp only [hfs, hpr] at hstep
          cases hstep
          exact hrest f hf
        | some r =>
          obtain ⟨package_key, package_info, filename⟩ := r
          simp only [hfs, hpr] at hstep
          by_cases htr : package_key ≠ "" ∧ package_info ≠ ""
          · rw [if_pos htr] at hstep
            cases hstep
            rcases hrest f hf with hin | hgood
            · rcases mem_insertOnce.1 hin with hin₀ | rfl
              · exact Or.inl hin₀
              · have hfn : f = p := process_ok_some_path hpr
                subst hfn
                exact Or.inr ⟨deb, hfs, package_key, package_info, hpr, htr⟩
            · exact Or.inr hgood
          · rw [if_neg htr] at hstep
            cases hstep
            exact hrest f hf

theorem mergedPackages_eq {cfg : Config} {fs : String → Option DebData}
    (existing_content : Option String) {paths : List String}
    {newP : List (String × String)} {touched : List String}
    (h : processChangeSet cfg fs paths = .ok (newP, touched)) :
    mergedPackages cfg fs existing_content paths = .ok
      (newP.foldl (fun acc kv => assocUpd acc kv.1 kv.2)
        ((parse_existing_packages existing_content).foldl (fun acc kp =>
          match keepStage touched kp with
          | some kv => assocUpd acc kv.1 kv.2
          | none => acc) [])) := by
  simp only [mergedPackages, h]
  congr 2
  apply foldl_fun_congr
  intro acc kp
  simp only [keepStage]
  cases kp.2.filename with
  | none => rfl
  | some f =>
    by_cases hf : f ∈ touched <;> simp [hf]

/-- One parse step either keeps the dict or updates one binding. -/
theorem parseStanzaStep_cases (packages : List (String × ExistingPkg)) (block : String) :
    parseStanzaStep packages block = packages ∨
    ∃ k pkg, parseStanzaStep packages block = assocUpd packages k pkg := by
  simp only [parseStanzaStep]
  by_cases hb : pyStripStr block = ""
  · exact Or.inl (by rw [if_pos hb])
  · rw [if_neg hb]
    cases assocGet (stanzaFields block) "Package" with
    | none => exact Or.inl rfl
    | some n =>
      cases assocGet (stanzaFields block) "Version" with
      | none => exact Or.inl rfl
      | some v =>
        cases assocGet (stanzaFields block) "Architecture" with
        | none => exact Or.inl rfl
        | some a =>
          by_cases hnz : n ≠ "" ∧ v ≠ "" ∧ a ≠ ""
          · refine Or.inr ⟨n ++ "_" ++ v ++ "_" ++ a,
              ⟨stanzaFields block, block, assocGet (stanzaFields block) "Filename",
                n, v, a⟩, ?_⟩
            simp only [if_pos hnz]
          · exact Or.inl (by simp only [if_neg hnz])

/-- The parsed existing-package dict never holds two entries with one key. -/
theorem parse_keys_nodup (c : Option String) :
    ((parse_existing_packages c).map Prod.fst).Nodup := by
  cases c with
  | none => simp [parse_existing_packages]
  | some content =>
    simp only [parse_existing_packages]
    have main : ∀ (bs : List String) (init : List (String × ExistingPkg)),
        (init.map Prod.fst).Nodup →
        ((bs.foldl parseStanzaStep init).map Prod.fst).Nodup := by
      intro bs
      induction bs with
      | nil => intro init h; exact h
      | cons b rest ih =>
        intro init h
        rw [List.foldl_cons]
        apply ih
        rcases parseStanzaStep_cases init b with heq | ⟨k, pkg, heq⟩
        · rw [heq]; exact h
        · rw [heq]; exact assocUpd_nodup_keys _ _ h
    exact main (pySplitBlocks content) [] (by simp)

/-- Whatever `keepStage` stages for an existing entry is that entry's key and
raw block. -/
theorem keepStage_eq_some {touched : List String} {kp : String × ExistingPkg}
    {kv : String × String} (h : keepStage touched kp = some kv) :
    kv = (kp.1, kp.2.block) := by
  simp only [keepStage] at h
  cases hf : kp.2.filename with
  | none => simp only [hf] at h; cases h; rfl
  | some f =>
    simp only [hf] at h
    by_cases hmem : f ∈ touched
    · rw [if_pos hmem] at h; cases h
    · rw [if_neg hmem] at h; cases h; rfl

/-- Inserting an association list into a dict left to right leaves, at each
key, the last staged value (or the initial dict's value). -/
theorem assocGet_foldl_upd (l init : List (String × String)) (k : String) :
    assocGet (l.foldl (fun acc kv => assocUpd acc kv.1 kv.2) init) k =
    lastValueFor k l (assocGet init k) := by
  have h := @assocGet_foldl_stage (String × String) some l init k
  rw [List.filterMap_some] at h
  exact h

/-! ### Round-trip machinery (claim C4) -/

theorem noNlNl_two (l : List Char) : noNlNl ('\n' :: '\n' :: l) = false := rfl

theorem noNlNl_tail {c : Char} {l : List Char} (h : noNlNl (c :: l) = true) :
    noNlNl l = true := by
  cases l with
  | nil => rfl
  | cons d l₂ =>
    by_cases hc : c = '\n'
    · subst hc
      by_cases hd : d = '\n'
      · subst hd
        rw [noNlNl_two] at h
        cases h
      · rw [noNlNl.eq_def] at h
        simpa [hd] using h
    · rw [noNlNl.eq_def] at h
      simpa [hc] using h

/-- Splitting at `"\n\n"` peels off a leading block that contains no double
newline and does not end in a newline. -/
theorem splitBlocks_block_append : ∀ (b : List Char) (r : List Char),
    noNlNl b = true → b.getLast? ≠ some '\n' →
    splitBlocks (b ++ '\n' :: '\n' :: r) = b :: splitBlocks r := by
  intro b
  induction b with
  | nil => intro r _ _; rfl
  | cons c b ih =>
    intro r hnn hlast
    cases b with
    | nil =>
      have hc : ¬ c = '\n' := by simpa using hlast
      rw [List.cons_append, List.nil_append, splitBlocks.eq_def]
      simp [hc]
      rw [show splitBlocks ('\n' :: '\n' :: r) = [] :: splitBlocks r from rfl]
    | cons d b₂ =>
      have hnn₂ : noNlNl (d :: b₂) = true := noNlNl_tail hnn
      have hlast₂ : (d :: b₂).getLast? ≠ some '\n' := by
        rwa [List.getLast?_cons_cons] at hlast
      have hih := ih r hnn₂ hlast₂
      by_cases hc : c = '\n'
      · subst hc
        have hd : ¬ d = '\n' := by
          intro hd
          subst hd
          rw [noNlNl_two] at hnn
          cases hnn
        rw [List.cons_append, splitBlocks.eq_def]
        simp [hd]
        rw [← List.cons_append, hih]
      · rw [List.cons_append, splitBlocks.eq_def]
        simp [hc]
        rw [← List.cons_append, hih]

/-- `String.mk` undoes `String.data`. -/
theorem string_mk_data (s : String) : String.mk s.data = s := by
  cases s
  rfl

/-- Splitting a well-formed joined document recovers its blocks (plus the
final empty block produced by the trailing blank line). -/
theorem pySplitBlocks_joinStanzas : ∀ (blocks : List String),
    (∀ b ∈ blocks, noNlNl b.data = true ∧ b.data.getLast? ≠ some '\n') →
    pySplitBlocks (joinStanzas blocks) = blocks ++ [""] := by
  intro blocks
  induction blocks with
  | nil => intro _; rfl
  | cons b rest ih =>
    intro h
    have hdata : (joinStanzas (b :: rest)).data =
        b.data ++ '\n' :: '\n' :: (joinStanzas rest).data := by
      show ((b ++ "\n\n") ++ joinStanzas rest).data = _
      rw [String.data_append, String.data_append, List.append_assoc]
      rfl
    unfold pySplitBlocks
    rw [hdata, splitBlocks_block_append b.data _ (h b (List.mem_cons_self _ _)).1
      (h b (List.mem_cons_self _ _)).2]
    rw [List.map_cons, string_mk_data]
    have hrest := ih (fun x hx => h x (List.mem_cons_of_mem _ hx))
    unfold pySplitBlocks at hrest
    rw [hrest]
    rfl

/-- A stanza with an identity key parses to a binding of that key whose stored
block is the raw stanza text. -/
theorem parseStanzaStep_of_identity {b k : String} (h : stanzaIdentity b = some k)
    (packages : List (String × ExistingPkg)) :
    ∃ pkg : ExistingPkg, pkg.block = b ∧
      parseStanzaStep packages b = assocUpd packages k pkg := by
  have hne : ¬ pyStripStr b = "" := by
    intro he
    have hf : stanzaFields b = [] := by
      unfold stanzaFields
      rw [he]
      rfl
    rw [stanzaIdentity, hf] at h
    simp [assocGet] at h
  rw [stanzaIdentity] at h
  simp only [parseStanzaStep, if_neg hne]
  cases hpn : assocGet (stanzaFields b) "Package" with
  | none => rw [hpn] at h; simp at h
  | some n =>
    cases hpv : assocGet (stanzaFields b) "Version" with
    | none => rw [hpn, hpv] at h; simp at h
    | some v =>
      cases hpa : assocGet (stanzaFields b) "Architecture" with
      | none => rw [hpn, hpv, hpa] at h; simp at h
      | some a =>
        rw [hpn, hpv, hpa] at h
        by_cases hnz : n ≠ "" ∧ v ≠ "" ∧ a ≠ ""
        · simp only [if_pos hnz, Option.some.injEq] at h
          refine ⟨⟨stanzaFields b, b, assocGet (stanzaFields b) "Filename", n, v, a⟩,
            rfl, ?_⟩
          simp only [if_pos hnz, h]
        · simp only [if_neg hnz] at h
          exact absurd h (by simp)

/-- Updating an absent key appends the binding at the end. -/
theorem assocUpd_of_not_mem {β : Type} {m : List (String × β)} {k : String}
    (h : k ∉ m.map Prod.fst) (v : β) : assocUpd m k v = m ++ [(k, v)] := by
  induction m with
  | nil => rfl
  | cons kv rest ih =>
    obtain ⟨k₀, v₀⟩ := kv
    simp only [List.map_cons, List.mem_cons] at h
    push_neg at h
    simp only [assocUpd, if_neg (Ne.symm h.1), List.cons_append]
    rw [ih h.2]

/-- With duplicate-free keys, lookup finds any present binding. -/
theorem assocGet_of_mem_nodup {β : Type} {m : List (String × β)}
    (hnd : (m.map Prod.fst).Nodup) {k : String} {v : β} (h : (k, v) ∈ m) :
    assocGet m k = some v := by
  induction m with
  | nil => simp at h
  | cons kv rest ih =>
    obtain ⟨k₀, v₀⟩ := kv
    simp only [List.map_cons, List.nodup_cons] at hnd
    rcases List.mem_cons.1 h with h₁ | h₁
    · rw [Prod.mk.injEq] at h₁
      simp [assocGet, h₁.1, h₁.2]
    · have hk : ¬ k₀ = k := by
        intro he
        exact hnd.1 (he ▸ by simpa using List.mem_map_of_mem Prod.fst h₁)
      simp only [assocGet, if_neg hk]
      exact ih hnd.2 h₁

/-- Parsing the fold of well-keyed stanzas appends one binding per stanza, in
order, storing the raw blocks. -/
theorem parse_fold_map : ∀ (stanzas : List (String × String))
    (init : List (String × ExistingPkg)),
    (∀ kb ∈ stanzas, stanzaIdentity kb.2 = some kb.1) →
    (∀ kb ∈ stanzas, kb.1 ∉ init.map Prod.fst) →
    (stanzas.map Prod.fst).Nodup →
    ((stanzas.map Prod.snd).foldl parseStanzaStep init).map (fun p => (p.1, p.2.block)) =
      init.map (fun p => (p.1, p.2.block)) ++ stanzas := by
  intro stanzas
  induction stanzas with
  | nil => intro init _ _ _; simp
  | cons kb rest ih =>
    intro init hkeys hdis hnd
    obtain ⟨k, b⟩ := kb
    obtain ⟨pkg, hpkgb, hstep⟩ :=
      parseStanzaStep_of_identity (hkeys (k, b) (List.mem_cons_self _ _)) init
    rw [List.map_cons, List.foldl_cons, hstep,
      assocUpd_of_not_mem (hdis (k, b) (List.mem_cons_self _ _))]
    simp only [List.map_cons, List.nodup_cons] at hnd
    have hdis₂ : ∀ kb ∈ rest, kb.1 ∉ (init ++ [(k, pkg)]).map Prod.fst := by
      intro kb hkb
      rw [List.map_append, List.mem_append]
      rintro (hin | hin)
      · exact hdis kb (List.mem_cons_of_mem _ hkb) hin
      · simp only [List.map_cons, List.map_nil, List.mem_singleton] at hin
        exact hnd.1 (hin ▸ by simpa using List.mem_map_of_mem Prod.fst hkb)
    rw [ih (init ++ [(k, pkg)]) (fun x hx => hkeys x (List.mem_cons_of_mem _ hx))
      hdis₂ hnd.2]
    simp [hpkgb]

/-- Parsing a well-formed, well-keyed document yields exactly its stanzas,
keys and raw blocks alike, in document order. -/
theorem parse_joinStanzas (stanzas : List (String × String))
    (hkeys : ∀ kb ∈ stanzas, stanzaIdentity kb.2 = some kb.1)
    (hclean : ∀ kb ∈ stanzas, noNlNl kb.2.data = true ∧ kb.2.data.getLast? ≠ some '\n')
    (hnodup : (stanzas.map Prod.fst).Nodup) :
    (parse_existing_packages (some (joinStanzas (stanzas.map Prod.snd)))).map
      (fun p => (p.1, p.2.block)) = stanzas := by
  simp only [parse_existing_packages]
  rw [pySplitBlocks_joinStanzas (stanzas.map Prod.snd) (by
    intro b hb
    rcases List.mem_map.1 hb with ⟨kb, hkb, hbe⟩
    exact hbe ▸ hclean kb hkb)]
  rw [List.foldl_append]
  rw [show ([""] : List String).foldl parseStanzaStep
      ((stanzas.map Prod.snd).foldl parseStanzaStep []) =
    (stanzas.map Prod.snd).foldl parseStanzaStep [] from rfl]
  have h := parse_fold_map stanzas [] hkeys (by simp) hnodup
  simpa using h

/-- The write loop of `merge_packages_file`, iterated over keys that look up
to blocks lacking a final newline, emits each block followed by a blank
line. -/
theorem serialize_fold (full : List (String × String)) :
    ∀ (stanzas : List (String × String)) (init : String),
    (∀ kb ∈ stanzas, assocGet full kb.1 = some kb.2 ∧ endsWithNl kb.2 = false) →
    (stanzas.map Prod.fst).foldl (fun acc package_key =>
      acc ++ (assocGet full package_key).getD "" ++
        (if endsWithNl ((assocGet full package_key).getD "") then "" else "\n") ++ "\n")
      init =
    init ++ joinStanzas (stanzas.map Prod.snd) := by
  intro stanzas
  induction stanzas with
  | nil =>
    intro init _
    simp [joinStanzas, strConcat]
  | cons kb rest ih =>
    intro init h
    obtain ⟨hget, hnl⟩ := h kb (List.mem_cons_self _ _)
    rw [List.map_cons, List.foldl_cons]
    simp only [hget, Option.getD_some, hnl, Bool.false_eq_true, if_false]
    rw [ih _ (fun x hx => h x (List.mem_cons_of_mem _ hx))]
    simp only [joinStanzas, List.map_cons, strConcat, String.append_assoc]
    rfl

/-! ### Claim theorems -/

/-- **C10**: in incremental-merge mode an empty ChangeSet makes
`merge_packages_file` return without writing, so the previously persisted
`Packages` document is byte-for-byte unchanged. -/
theorem claim_C10 (cfg : Config) (fs : String → Option DebData)
    (existing : Option String) :
    merge_packages_file cfg fs existing [] = .ok none ∧
    packages_file_after cfg fs existing [] = .ok existing :=
  ⟨rfl, rfl⟩

/-- **C9**: when the control text carries a `Package` field (and the package is
not suppressed by the hidden policy, which the spec treats as a separate
enrichment stage), extraction succeeds even if `Version` or `Architecture` is
missing, and the literal `"unknown"` takes the place of the missing component
inside the composite identity key of the returned record. -/
theorem claim_C9 (cfg : Config) (p : String) (d : DebData) (c name : String)
    (hc : d.control = .ok c) (hp : searchField "Package" c = some name)
    (hh : name ∉ cfg.hidden_packages) :
    ∃ info, process_single_deb_file cfg p d = .ok (some
      (name ++ "_" ++ (searchField "Version" c).getD "unknown" ++ "_" ++
        (searchField "Architecture" c).getD "unknown", info, p)) ∧
      (searchField "Version" c = none →
        name ++ "_" ++ (searchField "Version" c).getD "unknown" ++ "_" ++
          (searchField "Architecture" c).getD "unknown" =
        name ++ "_" ++ "unknown" ++ "_" ++
          (searchField "Architecture" c).getD "unknown") ∧
      (searchField "Architecture" c = none →
        name ++ "_" ++ (searchField "Version" c).getD "unknown" ++ "_" ++
          (searchField "Architecture" c).getD "unknown" =
        name ++ "_" ++ (searchField "Version" c).getD "unknown" ++ "_" ++ "unknown") := by
  refine ⟨_, process_success hc hp hh, ?_, ?_⟩ <;> intro h <;> rw [h] <;> rfl

theorem claim_C9_witness :
    ∃ info, process_single_deb_file cfgA "downloads/q.deb" debNoVer = .ok (some
      ("q" ++ "_" ++
        (searchField "Version" "Package: q\nArchitecture: arm\n").getD "unknown" ++ "_" ++
        (searchField "Architecture" "Package: q\nArchitecture: arm\n").getD "unknown",
       info, "downloads/q.deb")) ∧
      (searchField "Version" "Package: q\nArchitecture: arm\n" = none →
        "q" ++ "_" ++
          (searchField "Version" "Package: q\nArchitecture: arm\n").getD "unknown" ++ "_" ++
          (searchField "Architecture" "Package: q\nArchitecture: arm\n").getD "unknown" =
        "q" ++ "_" ++ "unknown" ++ "_" ++
          (searchField "Architecture" "Package: q\nArchitecture: arm\n").getD "unknown") ∧
      (searchField "Architecture" "Package: q\nArchitecture: arm\n" = none →
        "q" ++ "_" ++
          (searchField "Version" "Package: q\nArchitecture: arm\n").getD "unknown" ++ "_" ++
          (searchField "Architecture" "Package: q\nArchitecture: arm\n").getD "unknown" =
        "q" ++ "_" ++
          (searchField "Version" "Package: q\nArchitecture: arm\n").getD "unknown" ++
          "_" ++ "unknown") :=
  claim_C9 cfgA "downloads/q.deb" debNoVer "Package: q\nArchitecture: arm\n" "q"
    rfl rfl (by decide)

/-- **C7**: every record that survives enrichment carries, after its control
fields, exactly the derived fields of `specDerivedPart` in the fixed
documented order — depiction URL, secondary-depiction URL, icon URL, filename,
size, then the four digest fields — the depiction pair only when a depiction
id is found for the package name, and the icon line only when additionally a
base URL and an icon id are configured. -/
theorem claim_C7 (cfg : Config) (p : String) (d : DebData) (c name : String)
    (hc : d.control = .ok c) (hp : searchField "Package" c = some name)
    (hh : name ∉ cfg.hidden_packages) :
    ∃ key, process_single_deb_file cfg p d = .ok (some
      (key, renamedControl cfg name c ++ specDerivedPart cfg p d name, p)) :=
  ⟨_, process_success hc hp hh⟩

theorem claim_C7_witness :
    ∃ key, process_single_deb_file cfgA "downloads/pkg.deb" debOk = .ok (some
      (key, renamedControl cfgA "pkg" "Package: pkg\nName: Old\nVersion: 1.0\nArchitecture: arm\n" ++
        specDerivedPart cfgA "downloads/pkg.deb" debOk "pkg", "downloads/pkg.deb")) :=
  claim_C7 cfgA "downloads/pkg.deb" debOk
    "Package: pkg\nName: Old\nVersion: 1.0\nArchitecture: arm\n" "pkg" rfl rfl (by decide)

/-- **C8**: the digest-summary document is the fixed header metadata lines
(ending in a `Date` line in the RFC-1123-like format whose UTC offset is the
literal `+0000`), followed by one digest block per algorithm in the order
MD5Sum, SHA1, SHA256, SHA512, each block listing the artifacts in the
caller-supplied order as `" " ++ hex ++ " " ++ size ++ " " ++ base-filename`. -/
theorem claim_C8 (now : BuildTime) (fsR : String → ReleaseData) (files : List String) :
    generate_release_file now fsR files =
      specReleaseHeader now ++
      (specDigestBlock "MD5Sum" (fun d => d.md5) fsR files ++
       (specDigestBlock "SHA1" (fun d => d.sha1) fsR files ++
        (specDigestBlock "SHA256" (fun d => d.sha256) fsR files ++
         specDigestBlock "SHA512" (fun d => d.sha512) fsR files))) ∧
    ∃ s, strftimeDate now = s ++ " +0000" := by
  have hfold : ∀ (digestOf : ReleaseData → String) (hdr : String),
      files.foldl (fun acc file_path =>
        acc ++ " " ++ digestOf (fsR file_path) ++ " " ++
          toString (fsR file_path).size ++ " " ++ pathBaseName file_path ++ "\n") hdr =
      hdr ++ strConcat (files.map fun p =>
        " " ++ (digestOf (fsR p) ++ " " ++ (toString (fsR p).size ++ " " ++
          (pathBaseName p ++ "\n")))) := by
    intro digestOf hdr
    have hcongr : ∀ (acc fp : String),
        acc ++ " " ++ digestOf (fsR fp) ++ " " ++ toString (fsR fp).size ++ " " ++
          pathBaseName fp ++ "\n" =
        acc ++ (" " ++ (digestOf (fsR fp) ++ " " ++ (toString (fsR fp).size ++ " " ++
          (pathBaseName fp ++ "\n")))) := by
      intro b a
      simp [String.append_assoc]
    rw [foldl_fun_congr hcongr]
    exact foldl_append_eq _ _ _
  refine ⟨?_, _, rfl⟩
  have h1 := hfold (fun d => d.md5)
  have h2 := hfold (fun d => d.sha1)
  have h3 := hfold (fun d => d.sha256)
  have h4 := hfold (fun d => d.sha512)
  simp only [generate_release_file, h1, h2, h3, h4]
  simp only [specReleaseHeader, specDigestBlock, String.append_assoc]
  rfl

/-- **C5**: whenever an incremental merge writes a document, the document is
the serialization of the merged dict in ascending order of the composite
`name_version_architecture` key strings. -/
theorem claim_C5 (cfg : Config) (fs : String → Option DebData)
    (existing : Option String) (paths : List String) (doc : String)
    (hm : merge_packages_file cfg fs existing paths = .ok (some doc)) :
    ∃ all_packages, mergedPackages cfg fs existing paths = .ok all_packages ∧
      doc = serializePackages all_packages ∧
      List.Sorted pyStrOrder (pySorted (all_packages.map Prod.fst)) := by
  unfold merge_packages_file at hm
  by_cases hp : paths.isEmpty
  · rw [if_pos hp] at hm
    simp at hm
  · rw [if_neg hp] at hm
    cases hall : mergedPackages cfg fs existing paths with
    | error code => rw [hall] at hm; cases hm
    | ok all_packages =>
      rw [hall] at hm
      simp only [Except.ok.injEq, Option.some.injEq] at hm
      exact ⟨all_packages, rfl, hm.symm,
        List.sorted_insertionSort _ (all_packages.map Prod.fst)⟩

set_option maxRecDepth 8192 in
theorem claim_C5_witness :
    ∃ all_packages,
      mergedPackages cfgA fsA (some docHid) ["downloads/pkg.deb"] = .ok all_packages ∧
      docMergedC5 = serializePackages all_packages ∧
      List.Sorted pyStrOrder (pySorted (all_packages.map Prod.fst)) :=
  claim_C5 cfgA fsA (some docHid) ["downloads/pkg.deb"] docMergedC5 rfl

theorem except_error_bind {ε α β : Type} (e : ε) (f : α → Except ε β) :
    (Except.error e >>= f) = .error e := rfl

theorem except_ok_bind {ε α β : Type} (a : α) (f : α → Except ε β) :
    (Except.ok a >>= f) = f a := rfl

theorem except_pure {ε β : Type} (b : β) : (pure b : Except ε β) = .ok b := rfl

theorem except_map_error {ε α β : Type} (e : ε) (f : α → β) :
    (Except.error e : Except ε α).map f = .error e := rfl

theorem except_map_ok {ε α β : Type} (a : α) (f : α → β) :
    (Except.ok a : Except ε α).map f = .ok (f a) := rfl

/-- Sorting is invariant under permutation of the input: the string order is
total, transitive and antisymmetric, so two sorted permutations coincide. -/
theorem pySorted_eq_of_perm {l₁ l₂ : List String} (h : l₁.Perm l₂) :
    pySorted l₁ = pySorted l₂ := by
  exact List.eq_of_perm_of_sorted
    ((List.perm_insertionSort pyStrOrder l₁).trans
      (h.trans (List.perm_insertionSort pyStrOrder l₂).symm))
    (List.sorted_insertionSort pyStrOrder l₁)
    (List.sorted_insertionSort pyStrOrder l₂)

/-- The write loop of `generate_packages_file` refines the spec-side
composition: collect all extraction results in enumeration order, keep the
surviving stanzas, concatenate each followed by a blank-line separator. -/
theorem generate_fold_eq (cfg : Config) (dir : String) (readDeb : String → DebData) :
    ∀ (l : List String) (out : String),
      l.foldlM (fun out deb_file =>
        match process_single_deb_file cfg (dir ++ "/" ++ deb_file)
            (readDeb (dir ++ "/" ++ deb_file)) with
        | .error code => .error code
        | .ok none => .ok out
        | .ok (some (package_key, package_info, _)) =>
          if package_key ≠ "" ∧ package_info ≠ "" then .ok (out ++ package_info ++ "\n")
          else .ok out) out =
      (l.mapM (fun deb_file => process_single_deb_file cfg (dir ++ "/" ++ deb_file)
        (readDeb (dir ++ "/" ++ deb_file)))).map
        (fun results => out ++ strConcat ((results.filterMap fun r =>
          match r with
          | some (package_key, package_info, _) =>
            if package_key ≠ "" ∧ package_info ≠ "" then some package_info else none
          | none => none).map (· ++ "\n"))) := by
  intro l
  induction l with
  | nil =>
    intro out
    simp only [List.foldlM_nil, List.mapM_nil, except_pure, except_map_ok,
      List.filterMap_nil, List.map_nil, strConcat, String.append_empty]
  | cons x rest ih =>
    intro out
    rw [List.foldlM_cons, List.mapM_cons]
    cases hpr : process_single_deb_file cfg (dir ++ "/" ++ x) (readDeb (dir ++ "/" ++ x)) with
    | error code =>
      simp only [hpr, except_error_bind, except_map_error]
    | ok orec =>
      cases orec with
      | none =>
        simp only [hpr, except_ok_bind]
        rw [ih out]
        cases hmr : rest.mapM (fun deb_file => process_single_deb_file cfg
            (dir ++ "/" ++ deb_file) (readDeb (dir ++ "/" ++ deb_file))) with
        | error code =>
          simp only [except_error_bind, except_map_error]
        | ok rs =>
          simp only [except_ok_bind, except_pure, except_map_ok, List.filterMap_cons]
      | some r =>
        obtain ⟨package_key, package_info, fn⟩ := r
        simp only [hpr]
        by_cases htr : package_key ≠ "" ∧ package_info ≠ ""
        · rw [if_pos htr]
          simp only [except_ok_bind]
          rw [ih (out ++ package_info ++ "\n")]
          cases hmr : rest.mapM (fun deb_file => process_single_deb_file cfg
              (dir ++ "/" ++ deb_file) (readDeb (dir ++ "/" ++ deb_file))) with
          | error code =>
            simp only [except_error_bind, except_map_error]
          | ok rs =>
            simp only [except_ok_bind, except_pure, except_map_ok, List.filterMap_cons,
              if_pos htr, List.map_cons, strConcat, String.append_assoc]
        · rw [if_neg htr]
          simp only [except_ok_bind]
          rw [ih out]
          cases hmr : rest.mapM (fun deb_file => process_single_deb_file cfg
              (dir ++ "/" ++ deb_file) (readDeb (dir ++ "/" ++ deb_file))) with
          | error code =>
            simp only [except_error_bind, except_map_error]
          | ok rs =>
            simp only [except_ok_bind, except_pure, except_map_ok, List.filterMap_cons,
              if_neg htr]

/-- **C1 (counterexample)**: the ChangeSet holds `downloads/hid.deb`, whose
package is hidden-policy-excluded; the loop records NO touched filename
(`updated_filenames = []`), and the merged output still contains a stanza
whose `Filename` is `downloads/hid.deb` — the claim that the hidden archive
touches its filename, evicting the stale stanza, is false on the code. -/
theorem claim_C1_counterexample :
    processChangeSet cfgA fsA ["downloads/hid.deb"] = .ok ([], []) ∧
    merge_packages_file cfgA fsA (some docHid) ["downloads/hid.deb"] = .ok (some docHid) ∧
    "downloads/hid.deb" ∈ (pySplitBlocks docHid).filterMap stanzaFilename := by
  refine ⟨rfl, rfl, ?_⟩
  decide

/-- **C1 (amended)**: an archive of the ChangeSet whose extraction is
suppressed (hidden-policy exclusion returns the `None` triple) does NOT get
its filename recorded as touched, so an existing stanza carrying that
`Filename` survives into the merged dict unchanged (unless a new record
overwrites its identity key). -/
theorem claim_C1_amended (cfg : Config) (fs : String → Option DebData)
    (existing : Option String) (paths : List String)
    (newP : List (String × String)) (touched : List String)
    (F : String) (d : DebData) (all : List (String × String))
    (k : String) (pkg : ExistingPkg)
    (hps : processChangeSet cfg fs paths = .ok (newP, touched))
    (hfs : fs F = some d)
    (hnone : process_single_deb_file cfg F d = .ok none)
    (hm : mergedPackages cfg fs existing paths = .ok all)
    (hk : (k, pkg) ∈ parse_existing_packages existing)
    (hfn : pkg.filename = some F)
    (hnew : assocGet newP k = none) :
    F ∉ touched ∧ assocGet all k = some pkg.block := by
  have hFt : F ∉ touched := by
    intro hF
    rcases foldlM_processDebStep_touched cfg fs paths ([], []) (newP, touched) hps F hF with
      hin | ⟨d₂, hfs₂, k₂, i₂, hpr₂, _⟩
    · simp at hin
    · rw [hfs] at hfs₂
      injection hfs₂ with hd
      rw [← hd] at hpr₂
      rw [hnone] at hpr₂
      simp at hpr₂
  refine ⟨hFt, ?_⟩
  have hall := mergedPackages_eq existing hps
  rw [hm] at hall
  injection hall with hall
  rw [hall, assocGet_foldl_upd]
  have hnot : ∀ kv ∈ newP, kv.1 ≠ k := by
    intro kv hkv hkk
    exact (assocGet_eq_none_iff newP k).1 hnew
      (hkk ▸ List.mem_map_of_mem Prod.fst hkv)
  rw [lastValueFor_of_not_mem hnot, assocGet_foldl_stage]
  apply lastValueFor_of_unique
  · refine ⟨(k, pkg.block), List.mem_filterMap.2 ⟨(k, pkg), hk, ?_⟩, rfl⟩
    simp [keepStage, hfn, hFt]
  · intro kv hkv hkk
    rcases List.mem_filterMap.1 hkv with ⟨kp, hkp, hkeep⟩
    have hkv₂ := keepStage_eq_some hkeep
    have hkpk : kp.1 = k := by rw [hkv₂] at hkk; exact hkk
    have : kp.2 = pkg := by
      apply nodup_keys_unique (parse_keys_nodup existing) _ hk
      rw [← hkpk]
      exact hkp
    rw [hkv₂, this]

theorem claim_C1_amended_witness :
    "downloads/hid.deb" ∉ ([] : List String) ∧
    assocGet [("hid_1.0_arm", blockHid)] "hid_1.0_arm" = some blockHid :=
  claim_C1_amended cfgA fsA (some docHid) ["downloads/hid.deb"] [] []
    "downloads/hid.deb" debHidden [("hid_1.0_arm", blockHid)] "hid_1.0_arm"
    ⟨[("Package", "hid"), ("Version", "1.0"), ("Architecture", "arm"),
      ("Filename", "downloads/hid.deb")], blockHid, some "downloads/hid.deb",
      "hid", "1.0", "arm"⟩
    rfl rfl rfl rfl (by decide) rfl rfl

/-- **C2 (counterexample)**: full rebuild performs no deduplication — two
archives with one and the same control stanza yield an output document with
two stanzas whose identity triple is `p, 1, a`. -/
theorem claim_C2_counterexample :
    generate_packages_file cfgPlain "downloads" ["b.deb", "a.deb"] (fun _ => debDup) =
      .ok dupDoc ∧
    ((pySplitBlocks dupDoc).filterMap stanzaIdentity).count "p_1_a" = 2 := by
  refine ⟨rfl, ?_⟩
  decide

/-- **C2 (amended)**: the *incremental* merge keeps the identity keys of its
output dict pairwise distinct, new records take precedence over existing
stanzas with the same key, and the value staged for a key is the most
recently extracted surviving record of the ChangeSet for that key. Full
rebuild, by contrast, deduplicates nothing (see the counterexample). -/
theorem claim_C2_amended (cfg : Config) (fs : String → Option DebData)
    (existing : Option String) (paths : List String)
    (newP : List (String × String)) (touched : List String)
    (all : List (String × String))
    (hps : processChangeSet cfg fs paths = .ok (newP, touched))
    (hm : mergedPackages cfg fs existing paths = .ok all) :
    (all.map Prod.fst).Nodup ∧
    (∀ k v, assocGet newP k = some v → assocGet all k = some v) ∧
    (∀ k, assocGet newP k = lastValueFor k (stagedPairs cfg fs paths) none) := by
  have hall := mergedPackages_eq existing hps
  rw [hm] at hall
  injection hall with hall
  have hnewP : newP = (stagedPairs cfg fs paths).foldl
      (fun acc kv => assocUpd acc kv.1 kv.2) [] := by
    have h := foldlM_processDebStep_fst cfg fs paths ([], []) (newP, touched) hps
    exact h
  refine ⟨?_, ?_, ?_⟩
  · rw [hall]
    exact foldl_stage_nodup_keys some newP _
      (foldl_stage_nodup_keys (keepStage touched) (parse_existing_packages existing) []
        (by simp))
  · intro k v hv
    rw [hall, assocGet_foldl_upd]
    have hnd : (newP.map Prod.fst).Nodup := by
      rw [hnewP]
      exact foldl_stage_nodup_keys some (stagedPairs cfg fs paths) [] (by simp)
    apply lastValueFor_of_unique
    · exact ⟨(k, v), mem_of_assocGet_eq_some hv, rfl⟩
    · intro kv hkv hkk
      obtain ⟨k₁, v₁⟩ := kv
      cases hkk
      exact nodup_keys_unique hnd hkv (mem_of_assocGet_eq_some hv)
  · intro k
    rw [hnewP, assocGet_foldl_upd]
    rfl

set_option maxRecDepth 8192 in
theorem claim_C2_amended_witness :
    (([("hid_1.0_arm", blockHid), ("pkg_1.0_arm", infoPkg)] :
        List (String × String)).map Prod.fst).Nodup ∧
    (∀ k v, assocGet [("pkg_1.0_arm", infoPkg)] k = some v →
      assocGet [("hid_1.0_arm", blockHid), ("pkg_1.0_arm", infoPkg)] k = some v) ∧
    (∀ k, assocGet [("pkg_1.0_arm", infoPkg)] k =
      lastValueFor k (stagedPairs cfgA fsA ["downloads/pkg.deb"]) none) :=
  claim_C2_amended cfgA fsA (some docHid) ["downloads/pkg.deb"]
    [("pkg_1.0_arm", infoPkg)] ["downloads/pkg.deb"]
    [("hid_1.0_arm", blockHid), ("pkg_1.0_arm", infoPkg)] rfl rfl

/-- **C3 (counterexample)**: an archive whose control-metadata reader exits
non-zero (exit code 2) is NOT recovered: `subprocess.run(..., check=True)`
raises, the raised error propagates out of the whole merge, the remaining
archive of the ChangeSet is never processed and nothing is written. -/
theorem claim_C3_counterexample :
    merge_packages_file cfgA fsA (some docHid)
      ["downloads/bad.deb", "downloads/pkg.deb"] = .error 2 ∧
    packages_file_after cfgA fsA (some docHid)
      ["downloads/bad.deb", "downloads/pkg.deb"] = .error 2 :=
  ⟨rfl, rfl⟩

/-- **C3 (amended)**: of the two extraction-failure modes, only the missing
`Package` field is recovered locally — such an archive contributes nothing and
the ChangeSet loop continues exactly as if the path were absent; a non-zero
exit of the external reader raises an error that aborts the entire merge with
that exit code. -/
theorem claim_C3_amended :
    (∀ (cfg : Config) (fs : String → Option DebData)
      (st : List (String × String) × List String) (p : String) (d : DebData)
      (pre post : List String), fs p = some d →
      process_single_deb_file cfg p d = .ok none →
      (pre ++ p :: post).foldlM (processDebStep cfg fs) st =
        (pre ++ post).foldlM (processDebStep cfg fs) st) ∧
    (∀ (cfg : Config) (fs : String → Option DebData) (existing : Option String)
      (pre : List String) (p : String) (post : List String) (code : Nat)
      (d : DebData) (st' : List (String × String) × List String),
      fs p = some d → d.control = .error code →
      pre.foldlM (processDebStep cfg fs) ([], []) = .ok st' →
      merge_packages_file cfg fs existing (pre ++ p :: post) = .error code) := by
  constructor
  · intro cfg fs st p d pre post hfs hnone
    induction pre generalizing st with
    | nil =>
      rw [List.nil_append, List.nil_append, List.foldlM_cons]
      have hstep : processDebStep cfg fs st p = .ok st := by
        simp [processDebStep, hfs, hnone]
      rw [hstep]
      rfl
    | cons q pre ih =>
      rw [List.cons_append, List.cons_append, List.foldlM_cons, List.foldlM_cons]
      cases hq : processDebStep cfg fs st q with
      | error e => rfl
      | ok st₁ => exact ih st₁
  · intro cfg fs existing pre p post code d st' hfs hctrl hpre
    have hperr : process_single_deb_file cfg p d = .error code :=
      process_control_error hctrl
    have hne : (pre ++ p :: post).isEmpty = false := by
      cases pre <;> rfl
    have hcs : processChangeSet cfg fs (pre ++ p :: post) = .error code := by
      unfold processChangeSet
      rw [List.foldlM_append, hpre]
      show (p :: post).foldlM (processDebStep cfg fs) st' = .error code
      rw [List.foldlM_cons]
      have hstep : processDebStep cfg fs st' p = .error code := by
        simp [processDebStep, hfs, hperr]
      rw [hstep]
      rfl
    simp [merge_packages_file, hne, mergedPackages, hcs]

theorem claim_C3_amended_witness :
    (["downloads/nopack.deb", "downloads/pkg.deb"].foldlM (processDebStep cfgA fsA)
        ([], []) =
      ["downloads/pkg.deb"].foldlM (processDebStep cfgA fsA) ([], [])) ∧
    merge_packages_file cfgA fsA (some docHid)
      ["downloads/bad.deb", "downloads/pkg.deb"] = .error 2 :=
  ⟨claim_C3_amended.1 cfgA fsA ([], []) "downloads/nopack.deb" debNoPack []
      ["downloads/pkg.deb"] rfl rfl,
   claim_C3_amended.2 cfgA fsA (some docHid) [] "downloads/bad.deb"
      ["downloads/pkg.deb"] 2 debErr ([], []) rfl rfl rfl⟩

/-- **C6**: full rebuild canonicalizes the directory listing by sorting it
(lexicographically by filename), so any two enumerations of an unchanged
archive directory produce byte-identical documents; and the output is the
serialization, in that enumeration order with no re-sort by identity, of the
surviving records (`fullRebuildSurvivors`). -/
theorem claim_C6 (cfg : Config) (dir : String) (readDeb : String → DebData)
    (l₁ l₂ : List String) (hperm : l₁.Perm l₂) :
    generate_packages_file cfg dir l₁ readDeb = generate_packages_file cfg dir l₂ readDeb ∧
    generate_packages_file cfg dir l₁ readDeb =
      (fullRebuildSurvivors cfg dir l₁ readDeb).map
        (fun infos => strConcat (infos.map (· ++ "\n"))) := by
  constructor
  · simp only [generate_packages_file]
    rw [pySorted_eq_of_perm hperm]
  · simp only [generate_packages_file, fullRebuildSurvivors]
    rw [generate_fold_eq]
    cases hmr : ((pySorted l₁).filter fun f => pyEndsWith f ".deb").mapM
        (fun deb_file => process_single_deb_file cfg (dir ++ "/" ++ deb_file)
          (readDeb (dir ++ "/" ++ deb_file))) with
    | error code => simp only [except_map_error]
    | ok rs => simp only [except_map_ok, String.empty_append]

theorem claim_C6_witness :
    (generate_packages_file cfgPlain "downloads" ["b.deb", "a.deb"] (fun _ => debDup) =
      generate_packages_file cfgPlain "downloads" ["a.deb", "b.deb"] (fun _ => debDup)) ∧
    generate_packages_file cfgPlain "downloads" ["b.deb", "a.deb"] (fun _ => debDup) =
      (fullRebuildSurvivors cfgPlain "downloads" ["b.deb", "a.deb"] (fun _ => debDup)).map
        (fun infos => strConcat (infos.map (· ++ "\n"))) :=
  claim_C6 cfgPlain "downloads" (fun _ => debDup) ["b.deb", "a.deb"] ["a.deb", "b.deb"]
    (by decide)

/-- **C4 (counterexample)**: a well-formed two-stanza document whose stanzas
are not in ascending identity-key order is reordered by parse-then-serialize,
so the round trip is not byte-identical. -/
theorem claim_C4_counterexample : roundTripDoc docOutOfOrder ≠ docOutOfOrder := by
  decide

/-- **C4 (amended)**: parsing and re-serializing is byte-identical for
documents of `Key: Value` stanzas, one blank line between stanzas and a
trailing blank line, provided every stanza yields an identity key (nonempty
`Package`, `Version`, `Architecture`), and the stanzas appear in strictly
ascending identity-key order; each stanza's field order and content are then
preserved verbatim (the raw block is stored and re-emitted). Otherwise the
writer re-sorts, drops keyless stanzas, or collapses duplicate keys (see the
counterexample). -/
theorem claim_C4_amended (stanzas : List (String × String))
    (hkeys : ∀ kb ∈ stanzas, stanzaIdentity kb.2 = some kb.1)
    (hclean : ∀ kb ∈ stanzas, noNlNl kb.2.data = true ∧ kb.2.data.getLast? ≠ some '\n')
    (hsorted : stanzas.Pairwise (fun x y => pyStrOrder x.1 y.1 ∧ x.1 ≠ y.1)) :
    roundTripDoc (joinStanzas (stanzas.map Prod.snd)) =
      joinStanzas (stanzas.map Prod.snd) := by
  have hnodup : (stanzas.map Prod.fst).Nodup :=
    List.Pairwise.map Prod.fst (fun a b h => h.2) hsorted
  have hparse := parse_joinStanzas stanzas hkeys hclean hnodup
  unfold roundTripDoc
  rw [hparse]
  have hkeys_sorted : List.Pairwise pyStrOrder (stanzas.map Prod.fst) :=
    List.Pairwise.map Prod.fst (fun a b h => h.1) hsorted
  simp only [serializePackages]
  rw [show pySorted (stanzas.map Prod.fst) = stanzas.map Prod.fst from
    List.Sorted.insertionSort_eq hkeys_sorted]
  rw [serialize_fold stanzas stanzas "" ?_, String.empty_append]
  intro kb hkb
  obtain ⟨k, b⟩ := kb
  refine ⟨assocGet_of_mem_nodup hnodup hkb, ?_⟩
  exact decide_eq_false (hclean (k, b) hkb).2

theorem claim_C4_amended_witness :
    roundTripDoc (joinStanzas ([("a_1_x", "Package: a\nVersion: 1\nArchitecture: x"),
      ("b_1_x", "Package: b\nVersion: 1\nArchitecture: x")].map Prod.snd)) =
    joinStanzas ([("a_1_x", "Package: a\nVersion: 1\nArchitecture: x"),
      ("b_1_x", "Package: b\nVersion: 1\nArchitecture: x")].map Prod.snd) :=
  claim_C4_amended
    [("a_1_x", "Package: a\nVersion: 1\nArchitecture: x"),
     ("b_1_x", "Package: b\nVersion: 1\nArchitecture: x")]
    (by decide) (by decide) (by decide)

end DevKit
